import Mathlib

/-!
Verification of the issue-report extraction pipeline
(`program/preparation/5_get_issue_reports.py`) against its specification.

Text is embedded as `List Char` (Python `str`), records as insertion-ordered
association lists over a `Value` type covering the value domain of the data
model (null, boolean, scalar string, list of strings, and list of revision
ranges for the sub-page-derived fields).
-/

namespace CFuzz

abbrev Str := List Char

/-- Python whitespace for `str.strip()` / `str.isspace()` (ASCII range). -/
def pySpace (c : Char) : Bool :=
  c = ' ' || c = '\t' || c = '\n' || c = '\r' || c = '\x0b' || c = '\x0c'

/-- Python `str.strip()`. -/
def pyStrip (s : Str) : Str :=
  ((s.dropWhile pySpace).reverse.dropWhile pySpace).reverse

/-- Python `text.split(sep)` for a one-character separator: splits at every
occurrence, keeping empty parts. -/
def splitOn (sep : Char) : Str → List Str
  | [] => [[]]
  | c :: cs =>
    match splitOn sep cs with
    | [] => [[c]]
    | p :: ps => if c = sep then [] :: p :: ps else (c :: p) :: ps

/-- `split_revision_range` (5_get_issue_reports.py:53-57):
split on `':'`; return the parts only when there are exactly two and both
are longer than 10 characters, else return the text unsplit. -/
def split_revision_range (text : Str) : List Str :=
  match splitOn ':' text with
  | [a, b] => if a.length > 10 ∧ b.length > 10 then [a, b] else [text]
  | _ => [text]

/-- The part of `t` before its first `sep`. -/
def beforeFirst (sep : Char) (t : Str) : Str := t.takeWhile (· ≠ sep)

/-- The part of `t` after its first `sep`. -/
def afterFirst (sep : Char) (t : Str) : Str := (t.dropWhile (· ≠ sep)).tail

theorem splitOn_ne_nil (sep : Char) (s : Str) : splitOn sep s ≠ [] := by
  cases s with
  | nil => simp [splitOn]
  | cons c cs =>
    simp only [splitOn]
    rcases h : splitOn sep cs with _ | ⟨p, ps⟩
    · simp
    · by_cases hc : c = sep <;> simp [hc]

theorem splitOn_no_sep (sep : Char) (s : Str) (h : sep ∉ s) :
    splitOn sep s = [s] := by
  induction s with
  | nil => rfl
  | cons c cs ih =>
    simp only [List.mem_cons, not_or] at h
    simp only [splitOn, ih h.2]
    have : ¬c = sep := fun hc => h.1 hc.symm
    simp [this]

theorem splitOn_append (sep : Char) (s₁ s₂ : Str) (h : sep ∉ s₁) :
    splitOn sep (s₁ ++ sep :: s₂) = s₁ :: splitOn sep s₂ := by
  induction s₁ with
  | nil =>
    simp only [List.nil_append, splitOn]
    rcases hs : splitOn sep s₂ with _ | ⟨p, ps⟩
    · exact absurd hs (splitOn_ne_nil sep s₂)
    · simp
  | cons c cs ih =>
    simp only [List.mem_cons, not_or] at h
    have hne : ¬c = sep := fun hc => h.1 hc.symm
    simp only [List.cons_append, splitOn]
    rw [show (cs.append (sep :: s₂)) = cs ++ sep :: s₂ from rfl, ih h.2]
    simp [hne]

theorem beforeFirst_cons_ne (sep c : Char) (cs : Str) (hc : ¬c = sep) :
    beforeFirst sep (c :: cs) = c :: beforeFirst sep cs := by
  simp [beforeFirst, List.takeWhile_cons, hc]

theorem afterFirst_cons_ne (sep c : Char) (cs : Str) (hc : ¬c = sep) :
    afterFirst sep (c :: cs) = afterFirst sep cs := by
  simp [afterFirst, List.dropWhile_cons, hc]

theorem beforeFirst_cons_self (sep : Char) (cs : Str) :
    beforeFirst sep (sep :: cs) = [] := by
  simp [beforeFirst, List.takeWhile_cons]

theorem afterFirst_cons_self (sep : Char) (cs : Str) :
    afterFirst sep (sep :: cs) = cs := by
  simp [afterFirst, List.dropWhile_cons]

theorem mem_decomp (sep : Char) (t : Str) (h : sep ∈ t) :
    t = beforeFirst sep t ++ sep :: afterFirst sep t ∧
    sep ∉ beforeFirst sep t := by
  induction t with
  | nil => cases h
  | cons c cs ih =>
    by_cases hc : c = sep
    · subst hc
      rw [beforeFirst_cons_self, afterFirst_cons_self]
      exact ⟨rfl, by simp⟩
    · have hmem : sep ∈ cs := by
        rcases List.mem_cons.mp h with h1 | h1
        · exact absurd h1.symm hc
        · exact h1
      obtain ⟨he, hn⟩ := ih hmem
      rw [beforeFirst_cons_ne sep c cs hc, afterFirst_cons_ne sep c cs hc]
      constructor
      · rw [List.cons_append]
        exact congrArg (c :: ·) he
      · simp only [List.mem_cons, not_or]
        exact ⟨fun hh => hc hh.symm, hn⟩

theorem count_one_split (sep : Char) (t : Str) (h : t.count sep = 1) :
    splitOn sep t = [beforeFirst sep t, afterFirst sep t] := by
  have hmem : sep ∈ t := by
    by_contra hn
    rw [List.count_eq_zero_of_not_mem hn] at h
    exact absurd h (by decide)
  obtain ⟨he, hnb⟩ := mem_decomp sep t hmem
  have hafter : sep ∉ afterFirst sep t := by
    intro hmem2
    have hc := h
    rw [he] at hc
    rw [List.count_append, List.count_cons_self] at hc
    have h1 : List.count sep (beforeFirst sep t) = 0 :=
      List.count_eq_zero_of_not_mem hnb
    have h2 : 1 ≤ List.count sep (afterFirst sep t) :=
      List.count_pos_iff.mpr hmem2
    omega
  calc splitOn sep t = splitOn sep (beforeFirst sep t ++ sep :: afterFirst sep t) := by rw [← he]
    _ = beforeFirst sep t :: splitOn sep (afterFirst sep t) := splitOn_append _ _ _ hnb
    _ = [beforeFirst sep t, afterFirst sep t] := by rw [splitOn_no_sep _ _ hafter]

theorem count_ne_one_split (sep : Char) (t : Str) (h : t.count sep ≠ 1) :
    ∀ a b, splitOn sep t ≠ [a, b] := by
  intro a b hab
  apply h
  by_cases hmem : sep ∈ t
  · obtain ⟨he, hnb⟩ := mem_decomp sep t hmem
    rw [he] at hab ⊢
    rw [splitOn_append _ _ _ hnb] at hab
    have hb : splitOn sep (afterFirst sep t) = [b] := by
      simpa using congrArg List.tail hab
    have hafter : sep ∉ afterFirst sep t := by
      intro hm2
      obtain ⟨he2, hnb2⟩ := mem_decomp sep (afterFirst sep t) hm2
      rw [he2, splitOn_append _ _ _ hnb2] at hb
      injection hb with h1 h2
      exact splitOn_ne_nil _ _ h2
    rw [List.count_append, List.count_cons_self,
        List.count_eq_zero_of_not_mem hnb, List.count_eq_zero_of_not_mem hafter]
  · rw [splitOn_no_sep _ _ hmem] at hab
    injection hab with h1 h2
    injection h2

/-- C1 counterexample: the claim says a two-element result whenever the text
contains a colon and both the part before the first colon and the part after
it exceed 10 characters.  The code splits on every colon and demands exactly
two parts, so a text with two colons is returned unsplit even though both
sides of its first colon are long enough. -/
theorem C1_counterexample :
    (':' ∈ "aaaaaaaaaaa:bbbbbbbbbbb:c".data) ∧
    (beforeFirst ':' "aaaaaaaaaaa:bbbbbbbbbbb:c".data).length > 10 ∧
    (afterFirst ':' "aaaaaaaaaaa:bbbbbbbbbbb:c".data).length > 10 ∧
    (split_revision_range "aaaaaaaaaaa:bbbbbbbbbbb:c".data).length = 1 := by
  decide

/-- C1 (amended): `split_revision_range t` returns the two-element sequence
`[before, after]` (the parts around the colon) exactly when `t` contains
exactly one `':'` and both parts exceed 10 characters; in every other case it
returns the one-element sequence `[t]` with `t` unchanged. -/
theorem C1_split_revision_range (t : Str) :
    (t.count ':' = 1 ∧ (beforeFirst ':' t).length > 10 ∧
        (afterFirst ':' t).length > 10 →
      split_revision_range t = [beforeFirst ':' t, afterFirst ':' t]) ∧
    (¬(t.count ':' = 1 ∧ (beforeFirst ':' t).length > 10 ∧
        (afterFirst ':' t).length > 10) →
      split_revision_range t = [t]) := by
  constructor
  · rintro ⟨h1, h2, h3⟩
    unfold split_revision_range
    rw [count_one_split ':' t h1]
    simp [h2, h3]
  · intro hn
    by_cases h1 : t.count ':' = 1
    · have hs := count_one_split ':' t h1
      unfold split_revision_range
      rw [hs]
      have hx : ¬((beforeFirst ':' t).length > 10 ∧ (afterFirst ':' t).length > 10) := by
        intro hx; exact hn ⟨h1, hx.1, hx.2⟩
      simp only [gt_iff_lt]
      rw [if_neg (by simpa using hx)]
    · have hs := count_ne_one_split ':' t h1
      unfold split_revision_range
      rcases hp : splitOn ':' t with _ | ⟨a, _ | ⟨b, _ | ⟨c, rest⟩⟩⟩
      · rfl
      · rfl
      · exact absurd hp (hs a b)
      · rfl

/-- C1 witness: a text with exactly one colon and 11 characters on each side
is split into the two halves. -/
theorem C1_witness :
    split_revision_range "aaaaaaaaaaa:bbbbbbbbbbb".data =
      ["aaaaaaaaaaa".data, "bbbbbbbbbbb".data] := by
  have h := (C1_split_revision_range "aaaaaaaaaaa:bbbbbbbbbbb".data).1
    (by refine ⟨by decide, by decide, by decide⟩)
  rw [h]
  exact congrArg₂ (fun x y => [x, y]) (by decide) (by decide)

/-! ### The IssueRecord value domain and record operations

An issue record is a Python dict mapping field names to one of: `None`, a
boolean (`error`), a string, a list of strings, or a list of revision ranges
(each itself a list of strings, produced by `split_revision_range`). -/

inductive Value where
  | vNull
  | vBool (b : Bool)
  | vStr (s : Str)
  | vList (xs : List Str)
  | vList2 (xss : List (List Str))
deriving DecidableEq, Repr

/-- An issue record: insertion-ordered key/value pairs (a Python dict). -/
abbrev Record := List (Str × Value)

/-- `d.get(k)`: the value stored under `k`, if any. -/
def rget (r : Record) (k : Str) : Option Value :=
  (r.find? (fun p => p.1 = k)).map (·.2)

/-- `d[k] = v`: replace the value under `k` in place, or append the pair. -/
def rset (r : Record) (k : Str) (v : Value) : Record :=
  if r.any (fun p => p.1 = k) then
    r.map (fun p => if p.1 = k then (k, v) else p)
  else r ++ [(k, v)]

theorem rget_rset_self (r : Record) (k : Str) (v : Value) :
    rget (rset r k v) k = some v := by
  unfold rget rset
  by_cases h : r.any (fun p => decide (p.1 = k))
  · rw [if_pos h]
    induction r with
    | nil => simp at h
    | cons p ps ih =>
      by_cases hp : p.1 = k
      · simp [List.find?, hp]
      · simp only [List.any_cons, Bool.or_eq_true] at h
        rcases h with h | h
        · exact absurd (of_decide_eq_true h) hp
        · simp only [List.map_cons, if_neg hp]
          rw [List.find?_cons_of_neg _ (by simpa using hp)]
          exact ih h
  · rw [if_neg h]
    simp only [List.any_eq_true, not_exists, not_and] at h
    induction r with
    | nil => simp [List.find?]
    | cons p ps ih =>
      have hp : ¬p.1 = k := by
        have := h p (List.mem_cons_self p ps)
        simpa using this
      simp only [List.cons_append]
      rw [List.find?_cons_of_neg _ (by simpa using hp)]
      exact ih (fun q hq => h q (List.mem_cons_of_mem p hq))

theorem rget_rset_ne (r : Record) (k k' : Str) (v : Value) (hne : ¬k' = k) :
    rget (rset r k v) k' = rget r k' := by
  unfold rget rset
  by_cases h : r.any (fun p => decide (p.1 = k))
  · rw [if_pos h]
    clear h
    induction r with
    | nil => simp
    | cons p ps ih =>
      by_cases hp : p.1 = k
      · have hp' : ¬p.1 = k' := by rw [hp]; exact fun hh => hne hh.symm
        simp only [List.map_cons, if_pos hp]
        rw [List.find?_cons_of_neg _ (by simpa using fun hh : k = k' => hne hh.symm),
            List.find?_cons_of_neg _ (by simpa using hp')]
        exact ih
      · simp only [List.map_cons, if_neg hp]
        by_cases hk' : p.1 = k'
        · rw [List.find?_cons_of_pos _ (by simpa using hk'),
              List.find?_cons_of_pos _ (by simpa using hk')]
        · rw [List.find?_cons_of_neg _ (by simpa using hk'),
              List.find?_cons_of_neg _ (by simpa using hk')]
          exact ih
  · rw [if_neg h]
    clear h
    induction r with
    | nil =>
      simp only [List.nil_append]
      rw [List.find?_cons_of_neg _ (by simpa using fun hh : k = k' => hne hh.symm)]
    | cons p ps ih =>
      simp only [List.cons_append]
      by_cases hk' : p.1 = k'
      · rw [List.find?_cons_of_pos _ (by simpa using hk'),
            List.find?_cons_of_pos _ (by simpa using hk')]
      · rw [List.find?_cons_of_neg _ (by simpa using hk'),
            List.find?_cons_of_neg _ (by simpa using hk')]
        exact ih

/-! ### JSON serialization of cell values

`save_to_csv` (5_get_issue_reports.py:295-311) writes every cell as
`json.dumps(value, ensure_ascii=False)`.  `jdumps` models that encoder on the
record value domain; `jparse` models the stdlib decoder `json.loads` (an
external collaborator of the source), restricted to the grammar the persister
emits: `null`, booleans, strings, arrays of strings and arrays of arrays of
strings, with JSON whitespace tolerated between tokens. -/

/-- JSON whitespace accepted between tokens by the decoder. -/
def jsonWs (c : Char) : Bool := c = ' ' || c = '\t' || c = '\n' || c = '\r'

def skipWs (s : Str) : Str := s.dropWhile jsonWs

/-- Lower-case hex digit, as emitted by `json.dumps` in `\uXXXX` escapes. -/
def hexDigChar (n : Nat) : Char :=
  if n < 10 then Char.ofNat (48 + n) else Char.ofNat (87 + n)

def hexVal (c : Char) : Option Nat :=
  if '0' ≤ c ∧ c ≤ '9' then some (c.toNat - 48)
  else if 'a' ≤ c ∧ c ≤ 'f' then some (c.toNat - 87)
  else if 'A' ≤ c ∧ c ≤ 'F' then some (c.toNat - 55)
  else none

/-- The escape table of `json.dumps`: two-character escapes for the common
control characters, `\u00XX` for the remaining ones below 0x20, everything
else verbatim (`ensure_ascii=False`). -/
def escChar (c : Char) : Str :=
  if c = '"' then ['\\', '"']
  else if c = '\\' then ['\\', '\\']
  else if c = '\n' then ['\\', 'n']
  else if c = '\r' then ['\\', 'r']
  else if c = '\t' then ['\\', 't']
  else if c = '\x08' then ['\\', 'b']
  else if c = '\x0c' then ['\\', 'f']
  else if c.toNat < 32 then
    ['\\', 'u', '0', '0', hexDigChar (c.toNat / 16), hexDigChar (c.toNat % 16)]
  else [c]

def escStr (s : Str) : Str := (s.map escChar).flatten

/-- A JSON string literal. -/
def jstr (s : Str) : Str := '"' :: escStr s ++ ['"']

/-- `', '.join`, the default item separator of `json.dumps`. -/
def joinComma : List Str → Str
  | [] => []
  | [x] => x
  | x :: y :: ys => x ++ ',' :: ' ' :: joinComma (y :: ys)

/-- A JSON array of strings. -/
def arrDump (xs : List Str) : Str := '[' :: joinComma (xs.map jstr) ++ [']']

/-- `json.dumps(v, ensure_ascii=False)` on the record value domain. -/
def jdumps : Value → Str
  | .vNull => "null".data
  | .vBool true => "true".data
  | .vBool false => "false".data
  | .vStr s => jstr s
  | .vList xs => arrDump xs
  | .vList2 xss => '[' :: joinComma (xss.map arrDump) ++ [']']

def unescChar (e : Char) : Option Char :=
  if e = '"' then some '"'
  else if e = '\\' then some '\\'
  else if e = '/' then some '/'
  else if e = 'n' then some '\n'
  else if e = 'r' then some '\r'
  else if e = 't' then some '\t'
  else if e = 'b' then some '\x08'
  else if e = 'f' then some '\x0c'
  else none

/-- Decoder for the body of a JSON string literal (after the opening quote):
returns the decoded characters and the input after the closing quote. -/
def parseStrBody : Str → Option (Str × Str)
  | [] => none
  | c :: rest =>
    if c = '"' then some ([], rest)
    else if c = '\\' then
      match rest with
      | [] => none
      | e :: rest2 =>
        if e = 'u' then
          match rest2 with
          | a :: b :: c2 :: d :: rest3 =>
            match hexVal a, hexVal b, hexVal c2, hexVal d, parseStrBody rest3 with
            | some ha, some hb, some hc, some hd, some (s, r) =>
                some (Char.ofNat (((ha * 16 + hb) * 16 + hc) * 16 + hd) :: s, r)
            | _, _, _, _, _ => none
          | _ => none
        else
          match unescChar e, parseStrBody rest2 with
          | some u, some (s, r) => some (u :: s, r)
          | _, _ => none
    else
      match parseStrBody rest with
      | some (s, r) => some (c :: s, r)
      | none => none

/-- Decoder for a JSON string literal including the opening quote. -/
def parseStringTok : Str → Option (Str × Str)
  | [] => none
  | c :: rest => if c = '"' then parseStrBody rest else none

/-- Items of an array of strings, after the opening bracket of a non-empty
array; `fuel` bounds the number of items. -/
def parseStrItems : Nat → Str → Option (List Str × Str)
  | 0, _ => none
  | fuel + 1, s =>
    match parseStringTok (skipWs s) with
    | none => none
    | some (x, rest) =>
      match skipWs rest with
      | [] => none
      | c :: rest2 =>
        if c = ',' then
          match parseStrItems fuel rest2 with
          | some (xs, r) => some (x :: xs, r)
          | none => none
        else if c = ']' then some ([x], rest2)
        else none

/-- The tail of an array of strings, directly after its opening bracket. -/
def parseArrStrTail (fuel : Nat) (s : Str) : Option (List Str × Str) :=
  match skipWs s with
  | [] => none
  | c :: rest => if c = ']' then some ([], rest) else parseStrItems fuel s

/-- Items of a non-empty array of arrays of strings. -/
def parseArr2Items : Nat → Str → Option (List (List Str) × Str)
  | 0, _ => none
  | fuel + 1, s =>
    match skipWs s with
    | [] => none
    | c :: rest =>
      if c = '[' then
        match parseArrStrTail fuel rest with
        | none => none
        | some (xs, rest1) =>
          match skipWs rest1 with
          | [] => none
          | d :: rest2 =>
            if d = ',' then
              match parseArr2Items fuel rest2 with
              | some (ys, r) => some (xs :: ys, r)
              | none => none
            else if d = ']' then some ([xs], rest2)
            else none
      else none

/-- One JSON value out of the persister's grammar, plus the remaining input.
The decoder dispatches on the first non-blank character, as `json.loads`
does. -/
def jparseVal (fuel : Nat) (s : Str) : Option (Value × Str) :=
  match skipWs s with
  | [] => none
  | c :: rest =>
    if c = '"' then
      match parseStrBody rest with
      | some (x, r) => some (.vStr x, r)
      | none => none
    else if c = '[' then
      match skipWs rest with
      | [] => none
      | d :: rest2 =>
        if d = ']' then some (.vList [], rest2)
        else if d = '[' then
          match parseArr2Items fuel rest with
          | some (xss, r) => some (.vList2 xss, r)
          | none => none
        else
          match parseStrItems fuel rest with
          | some (xs, r) => some (.vList xs, r)
          | none => none
    else if c = 'n' then
      if rest.take 3 = "ull".data then some (.vNull, rest.drop 3) else none
    else if c = 't' then
      if rest.take 3 = "rue".data then some (.vBool true, rest.drop 3) else none
    else if c = 'f' then
      if rest.take 4 = "alse".data then some (.vBool false, rest.drop 4) else none
    else none

/-- `json.loads` on a whole cell: one value, then only whitespace. -/
def jparse (s : Str) : Option Value :=
  match jparseVal s.length s with
  | some (v, rest) => if skipWs rest = [] then some v else none
  | none => none

/-! ### Round-trip of the persisted cells -/

theorem skipWs_not_ws (c : Char) (s : Str) (h : jsonWs c = false) :
    skipWs (c :: s) = c :: s := by
  simp [skipWs, List.dropWhile_cons, h]

theorem skipWs_ws (c : Char) (s : Str) (h : jsonWs c = true) :
    skipWs (c :: s) = skipWs s := by
  simp [skipWs, List.dropWhile_cons, h]

theorem hexVal_hexDigChar : ∀ n < 16, hexVal (hexDigChar n) = some n := by
  decide

theorem psb_quote (t : Str) : parseStrBody ('"' :: t) = some ([], t) := by
  conv_lhs => rw [parseStrBody.eq_def]
  simp

theorem psb_esc2 (e : Char) (t : Str) (he : ¬e = 'u') :
    parseStrBody ('\\' :: e :: t) =
      match unescChar e, parseStrBody t with
      | some u, some (s, r) => some (u :: s, r)
      | _, _ => none := by
  conv_lhs => rw [parseStrBody.eq_def]
  simp [he]

theorem psb_u (a b c2 d : Char) (t : Str) :
    parseStrBody ('\\' :: 'u' :: a :: b :: c2 :: d :: t) =
      match hexVal a, hexVal b, hexVal c2, hexVal d, parseStrBody t with
      | some ha, some hb, some hc, some hd, some (s, r) =>
          some (Char.ofNat (((ha * 16 + hb) * 16 + hc) * 16 + hd) :: s, r)
      | _, _, _, _, _ => none := by
  conv_lhs => rw [parseStrBody.eq_def]
  simp

theorem psb_plain (c : Char) (t : Str) (h1 : ¬c = '"') (h2 : ¬c = '\\') :
    parseStrBody (c :: t) =
      match parseStrBody t with
      | some (s, r) => some (c :: s, r)
      | none => none := by
  conv_lhs => rw [parseStrBody.eq_def]
  simp [h1, h2]

theorem parseStrBody_escStr (s : Str) : ∀ rest : Str,
    parseStrBody (escStr s ++ '"' :: rest) = some (s, rest) := by
  induction s with
  | nil => intro rest; simpa [escStr] using psb_quote rest
  | cons c cs ih =>
    intro rest
    have hesc : escStr (c :: cs) = escChar c ++ escStr cs := by
      simp [escStr]
    rw [hesc, List.append_assoc]
    simp only [escChar]
    split_ifs with h1 h2 h3 h4 h5 h6 h7 h8
    · subst h1
      simp only [List.cons_append, List.nil_append]
      rw [psb_esc2 _ _ (by decide), ih rest]
      rfl
    · subst h2
      simp only [List.cons_append, List.nil_append]
      rw [psb_esc2 _ _ (by decide), ih rest]
      rfl
    · subst h3
      simp only [List.cons_append, List.nil_append]
      rw [psb_esc2 _ _ (by decide), ih rest]
      rfl
    · subst h4
      simp only [List.cons_append, List.nil_append]
      rw [psb_esc2 _ _ (by decide), ih rest]
      rfl
    · subst h5
      simp only [List.cons_append, List.nil_append]
      rw [psb_esc2 _ _ (by decide), ih rest]
      rfl
    · subst h6
      simp only [List.cons_append, List.nil_append]
      rw [psb_esc2 _ _ (by decide), ih rest]
      rfl
    · subst h7
      simp only [List.cons_append, List.nil_append]
      rw [psb_esc2 _ _ (by decide), ih rest]
      rfl
    · simp only [List.cons_append, List.nil_append]
      rw [psb_u]
      have d1 : hexVal (hexDigChar (c.toNat / 16)) = some (c.toNat / 16) :=
        hexVal_hexDigChar _ (by omega)
      have d2 : hexVal (hexDigChar (c.toNat % 16)) = some (c.toNat % 16) :=
        hexVal_hexDigChar _ (Nat.mod_lt _ (by decide))
      rw [show hexVal '0' = some 0 from by decide, d1, d2, ih rest]
      have harith : ((0 * 16 + 0) * 16 + c.toNat / 16) * 16 + c.toNat % 16 = c.toNat := by
        omega
      simp only [harith, Char.ofNat_toNat]
    · simp only [List.cons_append, List.nil_append]
      rw [psb_plain c _ h1 h2, ih rest]

theorem parseStringTok_jstr (s tail : Str) :
    parseStringTok (jstr s ++ tail) = some (s, tail) := by
  have : jstr s ++ tail = '"' :: (escStr s ++ '"' :: tail) := by
    simp [jstr]
  rw [this]
  show parseStrBody (escStr s ++ '"' :: tail) = some (s, tail)
  exact parseStrBody_escStr s tail

theorem jstr_head (s tail : Str) : jstr s ++ tail = '"' :: (escStr s ++ '"' :: tail) := by
  simp [jstr]

theorem skipWs_jstr (s tail : Str) : skipWs (jstr s ++ tail) = jstr s ++ tail := by
  rw [jstr_head, skipWs_not_ws _ _ (by decide), ← jstr_head]

theorem psi_ws (fuel : Nat) (c : Char) (t : Str) (h : jsonWs c = true) :
    parseStrItems fuel (c :: t) = parseStrItems fuel t := by
  cases fuel with
  | zero => rfl
  | succ f => simp only [parseStrItems, skipWs_ws c t h]

theorem items_rt : ∀ (xs : List Str) (fuel : Nat) (rest : Str), xs ≠ [] →
    xs.length ≤ fuel →
    parseStrItems fuel (joinComma (xs.map jstr) ++ ']' :: rest) = some (xs, rest) := by
  intro xs
  induction xs with
  | nil => intro _ _ h _; exact absurd rfl h
  | cons x ys ih =>
    intro fuel rest _ hf
    cases fuel with
    | zero => simp at hf
    | succ f =>
      cases ys with
      | nil =>
        have hj : joinComma ([x].map jstr) = jstr x := rfl
        rw [hj]
        simp only [parseStrItems]
        rw [skipWs_jstr, parseStringTok_jstr]
        dsimp only
        rw [skipWs_not_ws ']' rest (by decide)]
        simp
      | cons y zs =>
        have hj : joinComma ((x :: y :: zs).map jstr) =
            jstr x ++ ',' :: ' ' :: joinComma ((y :: zs).map jstr) := by
          simp [joinComma]
        rw [hj]
        simp only [parseStrItems]
        rw [List.append_assoc, skipWs_jstr, parseStringTok_jstr]
        dsimp only
        simp only [List.cons_append]
        rw [skipWs_not_ws ',' _ (by decide)]
        dsimp only
        rw [if_pos rfl]
        have hws : parseStrItems f (' ' :: (joinComma ((y :: zs).map jstr) ++ ']' :: rest)) =
            parseStrItems f (joinComma ((y :: zs).map jstr) ++ ']' :: rest) :=
          psi_ws f ' ' _ (by decide)
        rw [hws, ih f rest (by simp) (by simpa using Nat.le_of_succ_le_succ hf)]

theorem joinComma_jstr_head (x : Str) (ys : List Str) (rest : Str) :
    ∃ T, joinComma ((x :: ys).map jstr) ++ ']' :: rest = '"' :: T := by
  cases ys with
  | nil => exact ⟨escStr x ++ '"' :: ']' :: rest, by simp [joinComma, jstr]⟩
  | cons z zs =>
    exact ⟨escStr x ++ '"' :: ',' :: ' ' ::
      (joinComma ((z :: zs).map jstr) ++ ']' :: rest), by simp [joinComma, jstr]⟩

theorem arrStrTail_rt (xs : List Str) (fuel : Nat) (rest : Str)
    (hf : xs.length ≤ fuel) :
    parseArrStrTail fuel (joinComma (xs.map jstr) ++ ']' :: rest) = some (xs, rest) := by
  cases xs with
  | nil =>
    show parseArrStrTail fuel (']' :: rest) = some ([], rest)
    unfold parseArrStrTail
    rw [skipWs_not_ws ']' rest (by decide)]
    dsimp only
    rw [if_pos rfl]
  | cons x ys =>
    obtain ⟨T, hT⟩ := joinComma_jstr_head x ys rest
    unfold parseArrStrTail
    rw [hT, skipWs_not_ws '"' T (by decide)]
    dsimp only
    rw [if_neg (by decide), ← hT]
    exact items_rt (x :: ys) fuel rest (by simp) hf

theorem pa2_ws (fuel : Nat) (c : Char) (t : Str) (h : jsonWs c = true) :
    parseArr2Items fuel (c :: t) = parseArr2Items fuel t := by
  cases fuel with
  | zero => rfl
  | succ f => simp only [parseArr2Items, skipWs_ws c t h]

/-- Fuel needed to parse back an array of arrays of strings. -/
def sumNeeds (xss : List (List Str)) : Nat :=
  xss.foldr (fun xs a => 1 + xs.length + a) 0

theorem arr2_rt : ∀ (xss : List (List Str)) (fuel : Nat) (rest : Str), xss ≠ [] →
    sumNeeds xss ≤ fuel →
    parseArr2Items fuel (joinComma (xss.map arrDump) ++ ']' :: rest) =
      some (xss, rest) := by
  intro xss
  induction xss with
  | nil => intro _ _ h _; exact absurd rfl h
  | cons xs yss ih =>
    intro fuel rest _ hf
    have hf' : 1 + xs.length + sumNeeds yss ≤ fuel := hf
    cases fuel with
    | zero => omega
    | succ f =>
      cases yss with
      | nil =>
        have hs : joinComma ([xs].map arrDump) ++ ']' :: rest =
            '[' :: (joinComma (xs.map jstr) ++ ']' :: ']' :: rest) := by
          simp [joinComma, arrDump]
        rw [hs]
        simp only [parseArr2Items]
        rw [skipWs_not_ws '[' _ (by decide)]
        dsimp only
        rw [if_pos rfl]
        rw [arrStrTail_rt xs f (']' :: rest) (by omega)]
        dsimp only
        rw [skipWs_not_ws ']' rest (by decide)]
        dsimp only
        rw [if_neg (by decide)]
        rw [if_pos rfl]
      | cons ys zss =>
        have hs : joinComma ((xs :: ys :: zss).map arrDump) ++ ']' :: rest =
            '[' :: (joinComma (xs.map jstr) ++ ']' :: ',' :: ' ' ::
              (joinComma ((ys :: zss).map arrDump) ++ ']' :: rest)) := by
          simp [joinComma, arrDump]
        rw [hs]
        simp only [parseArr2Items]
        rw [skipWs_not_ws '[' _ (by decide)]
        dsimp only
        rw [if_pos rfl]
        rw [arrStrTail_rt xs f _ (by omega)]
        dsimp only
        rw [skipWs_not_ws ',' _ (by decide)]
        dsimp only
        rw [if_pos rfl]
        rw [pa2_ws f ' ' _ (by decide)]
        rw [ih f rest (by simp) (by
          have : sumNeeds (ys :: zss) = 1 + ys.length + sumNeeds zss := rfl
          have h2 : sumNeeds (xs :: ys :: zss) =
              1 + xs.length + (1 + ys.length + sumNeeds zss) := rfl
          omega)]

theorem jstr_len (s : Str) : 2 ≤ (jstr s).length := by
  simp [jstr]

theorem joinComma_jstr_len : ∀ xs : List Str, xs ≠ [] →
    xs.length ≤ (joinComma (xs.map jstr)).length := by
  intro xs
  induction xs with
  | nil => intro h; exact absurd rfl h
  | cons x ys ih =>
    intro _
    cases ys with
    | nil =>
      have := jstr_len x
      simp only [List.map_cons, List.map_nil, joinComma]
      simpa using by omega
    | cons y zs =>
      have h1 := ih (by simp)
      have h2 := jstr_len x
      have hj : joinComma ((x :: y :: zs).map jstr) =
          jstr x ++ ',' :: ' ' :: joinComma ((y :: zs).map jstr) := by
        simp [joinComma]
      rw [hj]
      simp only [List.length_cons, List.length_append] at *
      omega

theorem arrDump_len (xs : List Str) : 1 + xs.length ≤ (arrDump xs).length := by
  cases xs with
  | nil => simp [arrDump, joinComma]
  | cons x ys =>
    have := joinComma_jstr_len (x :: ys) (by simp)
    simp only [arrDump, List.length_cons, List.length_append] at *
    omega

theorem sumNeeds_le_joinComma : ∀ xss : List (List Str), xss ≠ [] →
    sumNeeds xss ≤ (joinComma (xss.map arrDump)).length := by
  intro xss
  induction xss with
  | nil => intro h; exact absurd rfl h
  | cons xs yss ih =>
    intro _
    cases yss with
    | nil =>
      have := arrDump_len xs
      have hs : sumNeeds [xs] = 1 + xs.length + 0 := rfl
      simp only [List.map_cons, List.map_nil, joinComma]
      omega
    | cons ys zss =>
      have h1 := ih (by simp)
      have h2 := arrDump_len xs
      have hs : sumNeeds (xs :: ys :: zss) = 1 + xs.length + sumNeeds (ys :: zss) := rfl
      have hj : joinComma ((xs :: ys :: zss).map arrDump) =
          arrDump xs ++ ',' :: ' ' :: joinComma ((ys :: zss).map arrDump) := by
        simp [joinComma]
      rw [hj]
      simp only [List.length_cons, List.length_append] at *
      omega

theorem jpv_quote (fuel : Nat) (X : Str) :
    jparseVal fuel ('"' :: X) =
      match parseStrBody X with
      | some (x, r) => some (.vStr x, r)
      | none => none := by
  unfold jparseVal
  rw [skipWs_not_ws '"' X (by decide)]
  dsimp only
  rw [if_pos rfl]

theorem jpv_bracket (fuel : Nat) (X : Str) :
    jparseVal fuel ('[' :: X) =
      match skipWs X with
      | [] => none
      | d :: rest2 =>
        if d = ']' then some (.vList [], rest2)
        else if d = '[' then
          match parseArr2Items fuel X with
          | some (xss, r) => some (.vList2 xss, r)
          | none => none
        else
          match parseStrItems fuel X with
          | some (xs, r) => some (.vList xs, r)
          | none => none := by
  unfold jparseVal
  rw [skipWs_not_ws '[' X (by decide)]
  dsimp only
  rw [if_neg (by decide), if_pos rfl]

/-- Round-trip of a single cell: decoding a value serialized by the persister
recovers the value.  The only exception is the empty nested list, whose JSON
form `[]` is indistinguishable from the empty list of strings. -/
theorem jdumps_jparse (v : Value) (hv : ¬v = Value.vList2 []) :
    jparse (jdumps v) = some v := by
  cases v with
  | vNull => decide
  | vBool b => cases b <;> decide
  | vStr s =>
    unfold jparse
    rw [show jdumps (.vStr s) = '"' :: (escStr s ++ '"' :: []) from rfl]
    rw [jpv_quote, parseStrBody_escStr]
    rfl
  | vList xs =>
    cases xs with
    | nil => decide
    | cons x ys =>
      unfold jparse
      rw [show jdumps (.vList (x :: ys)) =
        '[' :: (joinComma ((x :: ys).map jstr) ++ ']' :: []) from rfl]
      rw [jpv_bracket]
      obtain ⟨T, hT⟩ := joinComma_jstr_head x ys []
      rw [hT, skipWs_not_ws '"' T (by decide)]
      dsimp only
      rw [if_neg (by decide), if_neg (by decide), ← hT]
      rw [items_rt (x :: ys) _ [] (by simp) (by
        have := joinComma_jstr_len (x :: ys) (by simp)
        simp only [List.length_cons, List.length_append] at *
        omega)]
      rfl
  | vList2 xss =>
    cases xss with
    | nil => exact absurd rfl hv
    | cons xs yss =>
      unfold jparse
      rw [show jdumps (.vList2 (xs :: yss)) =
        '[' :: (joinComma ((xs :: yss).map arrDump) ++ ']' :: []) from rfl]
      rw [jpv_bracket]
      have hhead : ∃ T, joinComma ((xs :: yss).map arrDump) ++ ']' :: [] = '[' :: T := by
        cases yss with
        | nil => exact ⟨joinComma (xs.map jstr) ++ ']' :: ']' :: [], by simp [joinComma, arrDump]⟩
        | cons ys zss =>
          exact ⟨joinComma (xs.map jstr) ++ ']' :: ',' :: ' ' ::
            (joinComma ((ys :: zss).map arrDump) ++ ']' :: []), by simp [joinComma, arrDump]⟩
      obtain ⟨T, hT⟩ := hhead
      rw [hT, skipWs_not_ws '[' T (by decide)]
      dsimp only
      rw [if_neg (by decide), if_pos rfl, ← hT]
      rw [arr2_rt (xs :: yss) _ [] (by simp) (by
        have := sumNeeds_le_joinComma (xs :: yss) (by simp)
        simp only [List.length_cons, List.length_append] at *
        omega)]
      rfl

/-! ### The Batch Persister (`save_to_csv`, 5_get_issue_reports.py:295-311)

The delimited-file encoding itself (the `csv` module) is an external
collaborator; what the source computes is the header — the sorted union of
all keys of the batch — and, for every record, one JSON-encoded cell per
header key (`json.dumps(item.get(key))`).  Reading back is JSON-decoding
each cell. -/

/-- Code-point comparison backing Python's `sorted` on strings. -/
def strLt : Str → Str → Bool
  | [], [] => false
  | [], _ :: _ => true
  | _ :: _, [] => false
  | a :: as, b :: bs => if a < b then true else if b < a then false else strLt as bs

def strLe (a b : Str) : Bool := !(strLt b a)

/-- `header = sorted(all_keys)` where `all_keys` is the union of the key sets
of the batch. -/
def save_header (data_list : List Record) : List Str :=
  ((data_list.map (fun item => item.map (·.1))).flatten.dedup).mergeSort strLe

/-- One output cell: `json.dumps(item.get(key))` — `None` when the key is
absent. -/
def cellFor (item : Record) (k : Str) : Str :=
  jdumps ((rget item k).getD Value.vNull)

/-- One output row: a JSON-encoded cell for every header key, in order. -/
def rowCells (header : List Str) (item : Record) : List (Str × Str) :=
  header.map (fun k => (k, cellFor item k))

theorem rget_some_key_mem (r : Record) (k : Str) (v : Value)
    (h : rget r k = some v) : k ∈ r.map (·.1) := by
  unfold rget at h
  rcases hf : r.find? (fun p => decide (p.1 = k)) with _ | p
  · rw [hf] at h; cases h
  · have hpred := List.find?_some hf
    have hp : p.1 = k := by simpa using hpred
    have hm : p ∈ r := List.mem_of_find?_eq_some hf
    exact List.mem_map.mpr ⟨p, hm, hp⟩

theorem mem_save_header (batch : List Record) (r : Record) (k : Str) (v : Value)
    (hr : r ∈ batch) (hk : rget r k = some v) : k ∈ save_header batch := by
  unfold save_header
  rw [List.mem_mergeSort, List.mem_dedup]
  simp only [List.mem_flatten, List.mem_map]
  exact ⟨r.map (·.1), ⟨r, hr, rfl⟩, rget_some_key_mem r k v hk⟩

/-- C6: a cell written by the Batch Persister for a key present in the record
decodes back to exactly the value that was stored (null, boolean, scalar
string, list of strings, or non-empty list of revision ranges); the key is a
column of the batch header and the row carries that cell.  (The persisted
form of an empty `vList2` coincides with the empty string list, hence the
canonicity hypothesis.) -/
theorem C6_round_trip (batch : List Record) (r : Record) (k : Str) (v : Value)
    (hr : r ∈ batch) (hk : rget r k = some v) (hwf : ¬v = Value.vList2 []) :
    k ∈ save_header batch ∧
    (k, cellFor r k) ∈ rowCells (save_header batch) r ∧
    jparse (cellFor r k) = some v := by
  have hmem := mem_save_header batch r k v hr hk
  refine ⟨hmem, ?_, ?_⟩
  · exact List.mem_map.mpr ⟨k, hmem, rfl⟩
  · unfold cellFor
    rw [hk]
    exact jdumps_jparse v hwf

/-- C6 witness: a one-record batch with a string, a list, and a null value
round-trips exactly. -/
theorem C6_witness :
    jparse (cellFor [("Crash Type".data, Value.vList ["a".data, "b".data])]
      "Crash Type".data) = some (Value.vList ["a".data, "b".data]) :=
  (C6_round_trip [[("Crash Type".data, Value.vList ["a".data, "b".data])]]
    [("Crash Type".data, Value.vList ["a".data, "b".data])]
    "Crash Type".data (Value.vList ["a".data, "b".data])
    (by simp) (by rfl) (by simp)).2.2

/-- C9: a header key absent from a record is written as the cell `null`
(`json.dumps(None)`), which decodes to null and is exactly the cell produced
for a record storing an explicit null — so after read-back the two are
indistinguishable. -/
theorem C9_missing_key_null (batch : List Record) (r r2 : Record) (k : Str)
    (v2 : Value) (_hr : r ∈ batch) (hr2 : r2 ∈ batch) (hk2 : rget r2 k = some v2)
    (hmiss : rget r k = none) :
    k ∈ save_header batch ∧
    (k, "null".data) ∈ rowCells (save_header batch) r ∧
    cellFor r k = "null".data ∧
    jparse (cellFor r k) = some Value.vNull ∧
    (∀ rn : Record, rget rn k = some Value.vNull → cellFor rn k = cellFor r k) := by
  have hmem := mem_save_header batch r2 k v2 hr2 hk2
  have hcell : cellFor r k = "null".data := by
    unfold cellFor
    rw [hmiss]
    rfl
  refine ⟨hmem, ?_, hcell, ?_, ?_⟩
  · exact List.mem_map.mpr ⟨k, hmem, by rw [hcell]⟩
  · rw [hcell]; decide
  · intro rn hn
    unfold cellFor
    rw [hn, hmiss]
    rfl

/-- C9 witness: in a batch of two records, the record lacking the `Fixed` key
gets the literal cell `null`, identical to an explicit null. -/
theorem C9_witness :
    cellFor [("id".data, Value.vStr "1".data)] "Fixed".data = "null".data :=
  (C9_missing_key_null
    [[("id".data, Value.vStr "1".data)],
     [("id".data, Value.vStr "2".data), ("Fixed".data, Value.vStr "u".data)]]
    [("id".data, Value.vStr "1".data)]
    [("id".data, Value.vStr "2".data), ("Fixed".data, Value.vStr "u".data)]
    "Fixed".data (Value.vStr "u".data)
    (by simp) (by simp) (by rfl) (by rfl)).2.2.1

/-! ### Description-block parsing (`get_issue`, 5_get_issue_reports.py:230-269)

The block is parsed line by line with a current-key cursor.  A line matches a
vocabulary label via the compiled regex (label, optional parenthetical
annotation, colon; case-insensitive); otherwise, with a cursor set and the
line not a noise sentinel, the line is appended as a continuation.  The
vocabulary literal is wrapped in `list(set(...))` in the source, whose order
is unspecified; the embedding fixes the order of the literal. -/

def target_keys_desc : List Str :=
  ["Project".data, "Fuzzing Engine".data, "Fuzz Target".data, "Job Type".data,
   "Platform Id".data, "Crash Type".data, "Crash Address".data,
   "Crash State".data, "Sanitizer".data, "Regressed".data,
   "Reproducer Testcase".data, "Crash Revision".data, "Download".data,
   "Fixed".data, "Fuzzer".data, "Fuzzer binary".data,
   "Fuzz target binary".data, "Minimized Testcase".data,
   "Recommended Security Severity".data, "Unminimized Testcase".data,
   "Build log".data, "Build type".data]

def url_keys_with_possible_extra_text : List Str :=
  ["Regressed".data, "Fixed".data, "Crash Revision".data, "Build log".data,
   "Reproducer Testcase".data, "Minimized Testcase".data]

/-- Python's `in` operator on strings: substring containment. -/
def isSubstring (pat : Str) : Str → Bool
  | [] => pat.isPrefixOf []
  | c :: cs => pat.isPrefixOf (c :: cs) || isSubstring pat cs

/-- Python `str.replace(pat, repl)`: left-to-right, non-overlapping.  The
fuel argument (instantiated with the string length, which a non-empty
pattern can never outrun) keeps the recursion structural. -/
def replaceSubAux (pat repl : Str) : Nat → Str → Str
  | _, [] => []
  | 0, s => s
  | fuel + 1, c :: cs =>
    if ¬pat = [] ∧ pat.isPrefixOf (c :: cs) then
      repl ++ replaceSubAux pat repl fuel ((c :: cs).drop pat.length)
    else c :: replaceSubAux pat repl fuel cs

def replaceSub (pat repl s : Str) : Str := replaceSubAux pat repl s.length s

/-- Case-insensitive character comparison (`re.IGNORECASE`; the labels are
plain ASCII). -/
def eqIC (a b : Char) : Bool := a.toLower = b.toLower

def stripPrefixIC : Str → Str → Option Str
  | [], rest => some rest
  | _ :: _, [] => none
  | k :: ks, c :: cs => if eqIC k c then stripPrefixIC ks cs else none

/-- Is the first character after optional whitespace a colon? -/
def startsColonAfterSpaces (s : Str) : Bool :=
  match s.dropWhile pySpace with
  | [] => false
  | c :: _ => c = ':'

/-- After an opening parenthesis: does some later closing parenthesis leave
only whitespace before a colon?  (The backtracking of the regex's greedy
group ranges over every candidate.) -/
def closeParenColon : Str → Bool
  | [] => false
  | c :: cs => (c = ')' && startsColonAfterSpaces cs) || closeParenColon cs

/-- The tail of the label pattern after the label itself: an optional
whitespace-framed parenthetical, whitespace, then a colon. -/
def parenColonTail (s : Str) : Bool :=
  match s.dropWhile pySpace with
  | [] => false
  | c :: cs =>
    if c = ':' then true
    else if c = '(' then closeParenColon cs
    else false

/-- The Field Label Matcher: does the cleaned line match
label + optional parenthetical + colon, case-insensitively? -/
def matchesLabel (key : Str) (cleanLine : Str) : Bool :=
  match stripPrefixIC key cleanLine with
  | some rest => parenColonTail rest
  | none => false

/-- First vocabulary key matching the cleaned line (the source's inner
`for key in target_keys_desc` loop with `break`). -/
def findDescKey (cleanLine : Str) : Option Str :=
  target_keys_desc.find? (fun k => matchesLabel k cleanLine)

/-- `line.strip().replace('<b>','').replace('</b>','')`. -/
def lineStripped (line : Str) : Str :=
  replaceSub "</b>".data [] (replaceSub "<b>".data [] (pyStrip line))

/-- `line_stripped.replace('**','')`. -/
def cleanLineStart (ls : Str) : Str := replaceSub "**".data [] ls

/-- The raw value of a matched line: the remainder after the first colon,
stripped. -/
def descRawValue (ls : Str) : Str := pyStrip (afterFirst ':' ls)

/-- The noise sentinels that clear the cursor and drop the line. -/
def isNoise (ls : Str) : Bool :=
  isSubstring "Issue filed automatically".data ls || isSubstring "See ".data ls

/-- One line of the description-block loop: the record and the current-key
cursor after processing `line`. -/
def descStep (infos : Record) (currentKey : Option Str) (line : Str) :
    Record × Option Str :=
  let ls := lineStripped line
  if ls = [] then (infos, none)
  else
    match findDescKey (cleanLineStart ls) with
    | some key =>
      let value := descRawValue ls
      let v : Str :=
        if key ∈ url_keys_with_possible_extra_text then
          if isSubstring "http".data value then value.takeWhile (· ≠ ' ') else value
        else value
      (rset infos key (Value.vStr v), some key)
    | none =>
      match currentKey with
      | none => (infos, none)
      | some ck =>
        if isNoise ls then (infos, none)
        else
          match rget infos ck with
          | some (Value.vStr ex) =>
            if ex = [] then (rset infos ck (Value.vList [ls]), some ck)
            else (rset infos ck (Value.vList [ex, ls]), some ck)
          | some (Value.vList xs) => (rset infos ck (Value.vList (xs ++ [ls])), some ck)
          | _ => (infos, some ck)

/-- The whole description pass over the block's lines, starting from the
record accumulated so far with the cursor unset. -/
def parseDescLines (infos : Record) (lines : List Str) : Record :=
  (lines.foldl (fun st line => descStep st.1 st.2 line) (infos, none)).1

/-- C5: every vocabulary label followed by a parenthetical annotation and a
colon is matched to that canonical key with the stripped remainder as value,
while appending a non-delimited character to the label defeats the match. -/
theorem C5_field_label_matcher :
    ∀ L ∈ target_keys_desc,
      findDescKey (L ++ " (1.2 Kb): value".data) = some L ∧
      descRawValue (L ++ " (1.2 Kb): value".data) = "value".data ∧
      matchesLabel L (L ++ "x: value".data) = false := by
  decide

/-- C5 witness at the label `Crash Type`. -/
theorem C5_witness :
    findDescKey ("Crash Type".data ++ " (1.2 Kb): value".data) =
      some "Crash Type".data :=
  (C5_field_label_matcher "Crash Type".data (by decide)).1

/-- C4 counterexample: during one pass a field accumulated into a list is
overwritten with a fresh scalar by a later line matching the same label, so
"no field's value is ever demoted from a list back to a scalar during the
pass" fails as stated. -/
theorem C4_counterexample :
    rget (parseDescLines [] ["Crash Type: a".data, "b".data]) "Crash Type".data =
      some (Value.vList ["a".data, "b".data]) ∧
    rget (parseDescLines []
        ["Crash Type: a".data, "b".data, "Crash Type: c".data]) "Crash Type".data =
      some (Value.vStr "c".data) := by
  decide

/-- C4 (amended): the two continuation-accumulation examples hold as claimed,
and the continuation step itself never demotes: a line matching no label can
only extend a list-valued field, never turn it back into a scalar.  (Only a
later line that itself matches the label can overwrite the list.) -/
theorem C4_continuation_accumulation :
    rget (parseDescLines []
        ["Crash Type: Heap-overflow".data, "extra detail".data]) "Crash Type".data =
      some (Value.vList ["Heap-overflow".data, "extra detail".data]) ∧
    rget (parseDescLines [] ["Crash Type: Heap-overflow".data]) "Crash Type".data =
      some (Value.vStr "Heap-overflow".data) ∧
    ∀ (infos : Record) (currentKey : Option Str) (line : Str) (k : Str)
      (xs : List Str),
      findDescKey (cleanLineStart (lineStripped line)) = none →
      rget infos k = some (Value.vList xs) →
      ∃ ys, rget (descStep infos currentKey line).1 k =
        some (Value.vList (xs ++ ys)) := by
  refine ⟨by decide, by decide, ?_⟩
  intro infos currentKey line k xs hfind hk
  dsimp only [descStep]
  by_cases hls : lineStripped line = []
  · rw [if_pos hls]
    exact ⟨[], by simpa using hk⟩
  · rw [if_neg hls, hfind]
    dsimp only
    cases currentKey with
    | none => exact ⟨[], by simpa using hk⟩
    | some ck =>
      dsimp only
      by_cases hn : isNoise (lineStripped line) = true
      · rw [if_pos hn]
        exact ⟨[], by simpa using hk⟩
      · rw [if_neg hn]
        by_cases hck : ck = k
        · subst hck
          rw [hk]
          exact ⟨[lineStripped line], by dsimp only; rw [rget_rset_self]⟩
        · have hne : ¬k = ck := fun hh => hck hh.symm
          rcases hg : rget infos ck with _ | v
          · refine ⟨[], ?_⟩
            dsimp only
            rw [List.append_nil]
            exact hk
          · cases v with
            | vNull =>
              refine ⟨[], ?_⟩
              dsimp only
              rw [List.append_nil]
              exact hk
            | vBool b =>
              refine ⟨[], ?_⟩
              dsimp only
              rw [List.append_nil]
              exact hk
            | vList2 xss =>
              refine ⟨[], ?_⟩
              dsimp only
              rw [List.append_nil]
              exact hk
            | vStr ex =>
              by_cases hex : ex = []
              · refine ⟨[], ?_⟩
                dsimp only
                rw [if_pos hex]
                dsimp only
                rw [List.append_nil, rget_rset_ne infos ck k _ hne]
                exact hk
              · refine ⟨[], ?_⟩
                dsimp only
                rw [if_neg hex]
                dsimp only
                rw [List.append_nil, rget_rset_ne infos ck k _ hne]
                exact hk
            | vList xs2 =>
              refine ⟨[], ?_⟩
              dsimp only
              rw [List.append_nil, rget_rset_ne infos ck k _ hne]
              exact hk

/-- C4 witness: appending a continuation line to a list-valued field. -/
theorem C4_witness :
    ∃ ys, rget (descStep [("Crash Type".data, Value.vList ["a".data])]
      (some "Crash Type".data) "b".data).1 "Crash Type".data =
      some (Value.vList (["a".data] ++ ys)) :=
  C4_continuation_accumulation.2.2 [("Crash Type".data, Value.vList ["a".data])]
    (some "Crash Type".data) "b".data "Crash Type".data ["a".data]
    (by decide) (by decide)

/-! ### User-valued metadata fields (`get_issue`, 5_get_issue_reports.py:182-186) -/

def user_data_keys : List Str :=
  ["Reporter".data, "Assignee".data, "Verifier".data, "Collaborators".data,
   "CC".data]

/-- The hovercard texts of a user-valued field after stripping, dropping
empties and `--` placeholders. -/
def userValues (texts : List Str) : List Str :=
  (texts.map pyStrip).filter (fun v => !(v == []) && !(v == "--".data))

/-- Storage rule for a user-valued metadata field: empty remainder stores
null; `CC` and `Collaborators` always store the list; the other user fields
store a single remaining value as a scalar and several as a list. -/
def processUserField (label : Str) (texts : List Str) : Value :=
  match userValues texts with
  | [] => Value.vNull
  | v :: vs =>
    if label = "CC".data ∨ label = "Collaborators".data then Value.vList (v :: vs)
    else if vs = [] then Value.vStr v
    else Value.vList (v :: vs)

/-- C7 counterexample: a `CC` field with exactly one remaining value is
stored as a one-element list, not as a scalar, so the uniform
one-value-scalar rule fails as stated. -/
theorem C7_counterexample :
    processUserField "CC".data ["alice".data] = Value.vList ["alice".data] ∧
    ¬processUserField "CC".data ["alice".data] = Value.vStr "alice".data := by
  decide

/-- C7 (amended): after dropping empty and `--` entries, every user-valued
field stores an empty remainder as null and two or more values as a list;
a single remaining value is stored as a scalar for `Reporter`, `Assignee`
and `Verifier` but as a one-element list for `CC` and `Collaborators`. -/
theorem C7_user_fields (label : Str) (texts : List Str)
    (_hl : label ∈ user_data_keys) :
    (userValues texts = [] → processUserField label texts = Value.vNull) ∧
    (∀ v, userValues texts = [v] →
      processUserField label texts =
        if label = "CC".data ∨ label = "Collaborators".data then Value.vList [v]
        else Value.vStr v) ∧
    (2 ≤ (userValues texts).length →
      processUserField label texts = Value.vList (userValues texts)) := by
  refine ⟨?_, ?_, ?_⟩
  · intro h
    unfold processUserField
    rw [h]
  · intro v h
    unfold processUserField
    rw [h]
    dsimp only
    by_cases hc : label = "CC".data ∨ label = "Collaborators".data
    · rw [if_pos hc, if_pos hc]
    · rw [if_neg hc, if_neg hc, if_pos rfl]
  · intro h2
    unfold processUserField
    rcases hv : userValues texts with _ | ⟨v, _ | ⟨w, ws⟩⟩
    · rw [hv] at h2; simp at h2
    · rw [hv] at h2; simp at h2
    · dsimp only
      split_ifs with hc hw
      · rfl
      · simp at hw
      · rfl

/-- C7 witness: a `Reporter` field with one surviving value collapses to a
scalar after dropping the placeholder. -/
theorem C7_witness :
    processUserField "Reporter".data ["--".data, " alice ".data] =
      Value.vStr "alice".data := by
  have h := (C7_user_fields "Reporter".data ["--".data, " alice ".data]
    (by decide)).2.1 "alice".data (by decide)
  rw [h]
  decide

/-! ### The issue-page load loop (`get_issue`, 5_get_issue_reports.py:133-148)

`for attempt in range(max_retries)`: a successful wait breaks the loop; a
timeout with the throttle snackbar visible sleeps 10 s and `continue`s; any
other timeout `continue`s.  Either `continue` advances the bounded `for`
loop.  The sleep itself has no observable effect in this embedding. -/

inductive AttemptOutcome where
  | success
  | timeoutThrottled
  | timeoutPlain
deriving DecidableEq, Repr

def max_retries : Nat := 5

def loadLoop (outcomes : Nat → AttemptOutcome) : Nat → Nat → Bool
  | _, 0 => false
  | attempt, fuel + 1 =>
    match outcomes attempt with
    | .success => true
    | .timeoutThrottled => loadLoop outcomes (attempt + 1) fuel
    | .timeoutPlain => loadLoop outcomes (attempt + 1) fuel

/-- Did the load loop leave `load_success = True`? -/
def load_success (outcomes : Nat → AttemptOutcome) : Bool :=
  loadLoop outcomes 0 max_retries

theorem loadLoop_iff (outcomes : Nat → AttemptOutcome) :
    ∀ (f a : Nat), loadLoop outcomes a f = true ↔
      ∃ i < f, outcomes (a + i) = AttemptOutcome.success := by
  intro f
  induction f with
  | zero => intro a; simp [loadLoop]
  | succ g ih =>
    intro a
    cases h : outcomes a with
    | success =>
      simp only [loadLoop, h]
      constructor
      · intro _; exact ⟨0, by omega, by rw [Nat.add_zero]; exact h⟩
      · intro _; trivial
    | timeoutThrottled =>
      simp only [loadLoop, h]
      rw [ih (a + 1)]
      constructor
      · rintro ⟨i, hi, hs⟩
        exact ⟨i + 1, by omega, by rw [show a + (i + 1) = a + 1 + i by omega]; exact hs⟩
      · rintro ⟨j, hj, hs⟩
        cases j with
        | zero => rw [Nat.add_zero] at hs; rw [hs] at h; cases h
        | succ i =>
          exact ⟨i, by omega, by rw [show a + 1 + i = a + (i + 1) by omega]; exact hs⟩
    | timeoutPlain =>
      simp only [loadLoop, h]
      rw [ih (a + 1)]
      constructor
      · rintro ⟨i, hi, hs⟩
        exact ⟨i + 1, by omega, by rw [show a + (i + 1) = a + 1 + i by omega]; exact hs⟩
      · rintro ⟨j, hj, hs⟩
        cases j with
        | zero => rw [Nat.add_zero] at hs; rw [hs] at h; cases h
        | succ i =>
          exact ⟨i, by omega, by rw [show a + 1 + i = a + (i + 1) by omega]; exact hs⟩

/-- C2 (amended): the load loop succeeds exactly when one of the first 5
attempts succeeds — every timeout, throttled or not, consumes one of the 5
attempts; relabelling throttled timeouts as plain ones never changes the
outcome, so the budget does not distinguish them. -/
theorem C2_retry_budget (outcomes : Nat → AttemptOutcome) :
    (load_success outcomes = true ↔
      ∃ i < max_retries, outcomes i = AttemptOutcome.success) ∧
    load_success (fun i =>
      if outcomes i = AttemptOutcome.timeoutThrottled then
        AttemptOutcome.timeoutPlain
      else outcomes i) = load_success outcomes := by
  have hsw : ∀ i, ((if outcomes i = AttemptOutcome.timeoutThrottled then
      AttemptOutcome.timeoutPlain else outcomes i) = AttemptOutcome.success) ↔
      outcomes i = AttemptOutcome.success := by
    intro i
    cases h : outcomes i <;> simp [h]
  constructor
  · have h := loadLoop_iff outcomes max_retries 0
    simp only [Nat.zero_add] at h
    exact h
  · have hiff : (load_success (fun i =>
        if outcomes i = AttemptOutcome.timeoutThrottled then
          AttemptOutcome.timeoutPlain else outcomes i) = true) ↔
        (load_success outcomes = true) := by
      unfold load_success
      rw [loadLoop_iff, loadLoop_iff]
      constructor
      · rintro ⟨i, hi, hs⟩
        exact ⟨i, hi, (hsw (0 + i)).mp hs⟩
      · rintro ⟨i, hi, hs⟩
        exact ⟨i, hi, (hsw (0 + i)).mpr hs⟩
    rcases hA : load_success (fun i =>
        if outcomes i = AttemptOutcome.timeoutThrottled then
          AttemptOutcome.timeoutPlain else outcomes i) with _ | _
    · rcases hB : load_success outcomes with _ | _
      · rfl
      · rw [hA, hB] at hiff
        exact absurd (hiff.mpr rfl) (by decide)
    · rw [hA] at hiff
      rw [hiff.mp rfl]

/-! ### The partitioner (`main`, 5_get_issue_reports.py:488-492) -/

/-- Python `range(0, stop, step)` for a positive step. -/
def pyRangeStep (stop step : Nat) : List Nat :=
  (List.range ((stop + step - 1) / step)).map (· * step)

def num_windows_for (n : Nat) : Nat := if n < 8 then n else 8

/-- `math.ceil(len(ids) / num_windows)`. -/
def chunk_size_for (n : Nat) : Nat :=
  (n + num_windows_for n - 1) / num_windows_for n

/-- `chunks = [ids[i:i+chunk_size] for i in range(0, len(ids), chunk_size)]`,
with `num_windows = 8` capped at the list length. -/
def partition_ids (ids : List Nat) : List (List Nat) :=
  (pyRangeStep ids.length (chunk_size_for ids.length)).map
    (fun i => (ids.drop i).take (chunk_size_for ids.length))

theorem ceil_mul_ge (n k : Nat) (hk : 1 ≤ k) : n ≤ ((n + k - 1) / k) * k := by
  have h1 := Nat.div_add_mod (n + k - 1) k
  have h2 : (n + k - 1) % k < k := Nat.mod_lt _ (by omega)
  have h3 : ((n + k - 1) / k) * k = k * ((n + k - 1) / k) := Nat.mul_comm _ _
  omega

theorem chunks_flatten (m : Nat) : ∀ (k : Nat) (l : List Nat), 1 ≤ k →
    l.length ≤ m * k →
    (((List.range m).map (fun j => (l.drop (j * k)).take k))).flatten = l := by
  induction m with
  | zero =>
    intro k l _ hl
    simp only [Nat.zero_mul, Nat.le_zero] at hl
    rw [List.eq_nil_of_length_eq_zero hl]
    rfl
  | succ m ih =>
    intro k l hk hl
    rw [List.range_succ_eq_map]
    simp only [List.map_cons, List.map_map, List.flatten_cons, Nat.zero_mul,
      List.drop_zero]
    have hfun : ((List.range m).map
        ((fun j => (l.drop (j * k)).take k) ∘ Nat.succ)).flatten = l.drop k := by
      have hcongr : ∀ j, ((fun j => (l.drop (j * k)).take k) ∘ Nat.succ) j =
          (fun j => (((l.drop k).drop (j * k))).take k) j := by
        intro j
        simp only [Function.comp]
        rw [List.drop_drop]
        have h : j.succ * k = k + j * k := by
          rw [Nat.succ_mul]
          omega
        rw [h]
      rw [List.map_congr_left (fun j _ => hcongr j)]
      apply ih k (l.drop k) hk
      have hexp : (m + 1) * k = m * k + k := by ring
      simp only [List.length_drop]
      omega
    rw [hfun]
    exact List.take_append_drop k l

/-- C3 counterexample: 9 resolved IDs with 8 requested workers produce 5
partitions (chunk size `ceil(9/8) = 2`), not 8, refuting "whenever n ≥ w,
exactly w partitions are produced". -/
theorem C3_counterexample :
    8 ≤ (List.range 9).length ∧ (partition_ids (List.range 9)).length = 5 := by
  decide

/-- C3 (amended): the partitioner cuts the list into contiguous slices of
`ceil(n / min(n, 8))` elements (the last possibly shorter): concatenating the
partitions restores the list, every partition is at most a chunk long, the
number of partitions is `ceil(n / chunk_size)` — at most 8, and exactly n
when n < 8 — but it can be strictly fewer than 8 even when n ≥ 8. -/
theorem C3_partitioner (ids : List Nat) (hn : 1 ≤ ids.length) :
    (partition_ids ids).flatten = ids ∧
    (∀ c ∈ partition_ids ids, c.length ≤ chunk_size_for ids.length) ∧
    (partition_ids ids).length =
      (ids.length + chunk_size_for ids.length - 1) / chunk_size_for ids.length ∧
    (partition_ids ids).length ≤ num_windows_for ids.length ∧
    (ids.length < 8 → (partition_ids ids).length = ids.length) := by
  have hw : 1 ≤ num_windows_for ids.length := by
    unfold num_windows_for
    split_ifs with h8 <;> omega
  have hcs : 1 ≤ chunk_size_for ids.length := by
    unfold chunk_size_for
    rw [Nat.le_div_iff_mul_le (by omega)]
    omega
  refine ⟨?_, ?_, ?_, ?_, ?_⟩
  · unfold partition_ids pyRangeStep
    rw [List.map_map]
    have heq : ((fun i => (ids.drop i).take (chunk_size_for ids.length)) ∘
        (· * chunk_size_for ids.length)) =
        fun j => (ids.drop (j * chunk_size_for ids.length)).take
          (chunk_size_for ids.length) := rfl
    rw [heq]
    apply chunks_flatten _ _ _ hcs
    exact ceil_mul_ge ids.length (chunk_size_for ids.length) hcs
  · intro c hc
    unfold partition_ids at hc
    obtain ⟨i, _, hci⟩ := List.mem_map.mp hc
    rw [← hci]
    simp
  · unfold partition_ids pyRangeStep
    simp
  · unfold partition_ids pyRangeStep
    simp only [List.length_map, List.length_range]
    have hceil := ceil_mul_ge ids.length (num_windows_for ids.length) hw
    have hcs_def : chunk_size_for ids.length =
        (ids.length + num_windows_for ids.length - 1) / num_windows_for ids.length := rfl
    have hnwc : ids.length ≤ num_windows_for ids.length * chunk_size_for ids.length := by
      rw [hcs_def, Nat.mul_comm]
      exact hceil
    have hlt : (ids.length + chunk_size_for ids.length - 1) / chunk_size_for ids.length <
        num_windows_for ids.length + 1 := by
      rw [Nat.div_lt_iff_lt_mul (show 0 < chunk_size_for ids.length by omega)]
      have hexp : (num_windows_for ids.length + 1) * chunk_size_for ids.length =
          num_windows_for ids.length * chunk_size_for ids.length +
            chunk_size_for ids.length := by ring
      omega
    omega
  · intro h8
    have hwn : num_windows_for ids.length = ids.length := by
      unfold num_windows_for
      rw [if_pos h8]
    have hcs1 : chunk_size_for ids.length = 1 := by
      unfold chunk_size_for
      rw [hwn]
      exact Nat.div_eq_of_lt_le (by omega) (by omega)
    unfold partition_ids pyRangeStep
    simp only [List.length_map, List.length_range, hcs1]
    omega

/-- C3 witness: nine IDs are partitioned into contiguous chunks that
concatenate back to the input. -/
theorem C3_witness : (partition_ids (List.range 9)).flatten = List.range 9 :=
  (C3_partitioner (List.range 9) (by decide)).1

/-! ### The issue extractor (`get_issue`, 5_get_issue_reports.py:127-293)

The browser session is abstracted as an `IssuePage`: what the waits and
element queries of the source would observe on this issue's page.  `none`
for an optional component models the corresponding
`TimeoutException`/`NoSuchElementException`; timestamps are carried in their
final formatted form (the `datetime` library is external to the source). -/

structure MetaField where
  /-- The text of the field's `<label>`. -/
  label : Str
  /-- The `b-person-hovercard` texts (consulted for user-valued labels). -/
  userTexts : List Str
  /-- The text of the single-value element, when present. -/
  textValue : Option Str

structure IssuePage where
  issueNo : Nat
  /-- Outcome of the n-th navigation attempt of the load loop. -/
  attempts : Nat → AttemptOutcome
  /-- `driver.current_url` after a successful load. -/
  finalUrl : Str
  /-- Text of `h3.heading-m.ng-star-inserted`, if found. -/
  title1 : Option Str
  /-- Text of `issue-header h3`, if found. -/
  title2 : Option Str
  /-- Texts of the hotlist chips, if the wait succeeded. -/
  hotlists : Option (List Str)
  /-- The formatted `reported_time`, when the timestamp element was found
  with a non-empty attribute. -/
  reportedTime : Option Str
  /-- The metadata field containers, if the container was found. -/
  metaFields : Option (List MetaField)
  /-- The outcome of the newest-first event scan: the `Fixed` URL and, when
  co-located, the formatted `fixed_time`. -/
  fixedInfo : Option (Str × Option Str)
  /-- The description text, if the container was found. -/
  descText : Option Str
  /-- For each sub-page URL: the (component, revision-range) cell texts of
  its revision table, or `none` when navigation or the table failed. -/
  subPages : Str → Option (List (Str × Str))

def target_keys_meta : List Str :=
  ["Reporter".data, "Type".data, "Priority".data, "Severity".data,
   "Status".data, "Assignee".data, "Verifier".data, "Collaborators".data,
   "CC".data, "Project".data, "Disclosure".data, "Reported".data,
   "Code Changes".data, "Pending Code Changes".data, "Staffing".data,
   "Found In".data, "Targeted To".data, "Verified In".data]

def date_keys : List Str := ["Disclosure".data, "Reported".data]

/-- `datetime.strptime(value, "%Y-%m-%d").strftime("%Y-%m-%d")` with the
`except ValueError` fallback to the raw value: on canonical `YYYY-MM-DD`
strings the round-trip reproduces the input, and unparseable values are
stored raw, so the net effect modelled here is the identity (`datetime` is
external to the source; non-canonical strings that `strptime` would accept,
such as unpadded months, are not distinguished). -/
def normalize_date (value : Str) : Str := value

/-- `output_key`: the stored key for a recognized label — `Reported` is
renamed to disambiguate it from the description-block key (line 181). -/
def metaOutputKey (label : Str) : Str :=
  if label = "Reported".data then "Metadata_Reported_Date".data else label

/-- One metadata field container (5_get_issue_reports.py:177-194). -/
def metaStep (r : Record) (f : MetaField) : Record :=
  if pyStrip f.label ∈ target_keys_meta then
    if pyStrip f.label ∈ user_data_keys then
      rset r (metaOutputKey (pyStrip f.label))
        (processUserField (pyStrip f.label) f.userTexts)
    else
      match f.textValue with
      | none => r
      | some tv =>
        if pyStrip tv = "--".data ∨ pyStrip tv = [] then
          rset r (metaOutputKey (pyStrip f.label)) Value.vNull
        else if pyStrip f.label ∈ date_keys then
          rset r (metaOutputKey (pyStrip f.label))
            (Value.vStr (normalize_date (pyStrip tv)))
        else rset r (metaOutputKey (pyStrip f.label)) (Value.vStr (pyStrip tv))
  else r

structure RevisionData where
  components : List Str
  revisions : List (List Str)
  buildtime : Option (List Str)

/-- The row-parsing core of `scrape_revision_details`
(5_get_issue_reports.py:87-125): keep rows whose first two cells are
non-blank, split each revision range, and derive `buildtime` from the URL's
trailing `=` segment. -/
def scrape_revision_details (url : Str) (rows : List (Str × Str)) :
    RevisionData where
  components := (rows.filter (fun rc =>
    !(pyStrip rc.1 == []) && !(pyStrip rc.2 == []))).map (fun rc => pyStrip rc.1)
  revisions := (rows.filter (fun rc =>
    !(pyStrip rc.1 == []) && !(pyStrip rc.2 == []))).map
      (fun rc => split_revision_range (pyStrip rc.2))
  buildtime :=
    if '=' ∈ url then
      some (splitOn ':' ((splitOn '=' url).getLast (splitOn_ne_nil '=' url)))
    else none

def url_keys_to_scrape : List (Str × Str) :=
  [("Regressed".data, "regressed".data), ("Fixed".data, "fixed".data),
   ("Crash Revision".data, "crash".data)]

def optListValue : Option (List Str) → Value
  | none => Value.vNull
  | some l => Value.vList l

/-- Follow one URL-bearing field to its sub-page and merge the three derived
keys (5_get_issue_reports.py:273-292); a failed scrape leaves the record
unchanged. -/
def subScrapeStep (subPages : Str → Option (List (Str × Str))) (r : Record)
    (ik pre : Str) : Record :=
  match rget r ik with
  | some (Value.vStr su) =>
    if "http".data.isPrefixOf su then
      match subPages su with
      | some rows =>
        let rd := scrape_revision_details su rows
        rset (rset (rset r (pre ++ "_components".data) (Value.vList rd.components))
          (pre ++ "_revisions".data) (Value.vList2 rd.revisions))
          (pre ++ "_buildtime".data) (optListValue rd.buildtime)
      | none => r
    else r
  | _ => r

/-- `str(issue_no)`. -/
def natStr (n : Nat) : Str := Nat.toDigits 10 n

/-- The tracker URL template chosen by ID magnitude
(5_get_issue_reports.py:128-131). -/
def initial_url (issue_no : Nat) : Str :=
  if issue_no < 10000000 then
    "https://bugs.chromium.org/p/oss-fuzz/issues/detail?id=".data ++ natStr issue_no
  else
    "https://issues.oss-fuzz.com/issues/".data ++ natStr issue_no

/-- The error record returned when the page never loads
(5_get_issue_reports.py:148). -/
def fail_record (p : IssuePage) : Record :=
  [("id".data, Value.vStr (natStr p.issueNo)),
   ("url".data, Value.vStr (initial_url p.issueNo)),
   ("error".data, Value.vBool true),
   ("title".data, Value.vStr "Failed to load page".data)]

/-- `issue_infos` as first populated after a successful load (line 155). -/
def base_record (p : IssuePage) : Record :=
  [("id".data, Value.vStr ((splitOn '/' p.finalUrl).getLast (splitOn_ne_nil '/' p.finalUrl))),
   ("url".data, Value.vStr p.finalUrl),
   ("error".data, Value.vBool false)]

/-- Title extraction with its two selectors and the error fallback
(lines 156-159). -/
def title_stage (p : IssuePage) (r : Record) : Record :=
  match p.title1 with
  | some t => rset r "title".data (Value.vStr t)
  | none =>
    match p.title2 with
    | some t => rset r "title".data (Value.vStr t)
    | none => rset r "error".data (Value.vBool true)

/-- Hotlist chips, kept only when a non-blank one exists (lines 161-164). -/
def hotlists_stage (p : IssuePage) (r : Record) : Record :=
  match p.hotlists with
  | none => r
  | some els =>
    if els.filter (fun t => !(t == [])) = [] then r
    else rset r "hotlists".data (Value.vList (els.filter (fun t => !(t == []))))

/-- The reported timestamp (lines 166-169). -/
def reported_stage (p : IssuePage) (r : Record) : Record :=
  match p.reportedTime with
  | none => r
  | some t => rset r "reported_time".data (Value.vStr t)

/-- The metadata block (lines 171-196). -/
def meta_stage (p : IssuePage) (r : Record) : Record :=
  match p.metaFields with
  | none => r
  | some fields => fields.foldl metaStep r

/-- The event-derived fixed disclosure (lines 198-228). -/
def fixed_stage (p : IssuePage) (r : Record) : Record :=
  match p.fixedInfo with
  | none => r
  | some ft =>
    match ft.2 with
    | some t => rset (rset r "Fixed".data (Value.vStr ft.1)) "fixed_time".data (Value.vStr t)
    | none => rset r "Fixed".data (Value.vStr ft.1)

/-- The description block (lines 230-271). -/
def desc_stage (p : IssuePage) (r : Record) : Record :=
  match p.descText with
  | none => r
  | some txt => parseDescLines r (splitOn '\n' txt)

/-- The three sub-page scrapes (lines 273-292). -/
def subpages_stage (p : IssuePage) (r : Record) : Record :=
  url_keys_to_scrape.foldl (fun r kp => subScrapeStep p.subPages r kp.1 kp.2) r

/-- The whole per-issue extraction (`get_issue`). -/
def get_issue (p : IssuePage) : Record :=
  if load_success p.attempts = false then fail_record p
  else
    subpages_stage p (desc_stage p (fixed_stage p (meta_stage p
      (reported_stage p (hotlists_stage p (title_stage p (base_record p)))))))

theorem metaStep_preserve (r : Record) (f : MetaField) (k : Str)
    (hk : ¬k ∈ target_keys_meta) (hk2 : ¬k = "Metadata_Reported_Date".data) :
    rget (metaStep r f) k = rget r k := by
  unfold metaStep
  by_cases hl : pyStrip f.label ∈ target_keys_meta
  · rw [if_pos hl]
    have hne : ¬k = metaOutputKey (pyStrip f.label) := by
      unfold metaOutputKey
      split_ifs with hrep
      · exact hk2
      · intro hh; rw [hh] at hk; exact hk hl
    by_cases hu : pyStrip f.label ∈ user_data_keys
    · rw [if_pos hu, rget_rset_ne _ _ _ _ hne]
    · rw [if_neg hu]
      cases f.textValue with
      | none => rfl
      | some tv =>
        dsimp only
        split_ifs with h1 h2
        · rw [rget_rset_ne _ _ _ _ hne]
        · rw [rget_rset_ne _ _ _ _ hne]
        · rw [rget_rset_ne _ _ _ _ hne]
  · rw [if_neg hl]

theorem meta_fold_preserve (k : Str) (hk : ¬k ∈ target_keys_meta)
    (hk2 : ¬k = "Metadata_Reported_Date".data) :
    ∀ (fields : List MetaField) (r : Record),
      rget (fields.foldl metaStep r) k = rget r k := by
  intro fields
  induction fields with
  | nil => intro r; rfl
  | cons f fs ih =>
    intro r
    simp only [List.foldl_cons]
    rw [ih (metaStep r f), metaStep_preserve r f k hk hk2]

theorem descStep_preserve (infos : Record) (ck? : Option Str) (line k : Str)
    (hk : ¬k ∈ target_keys_desc)
    (hck : ∀ c, ck? = some c → c ∈ target_keys_desc) :
    rget (descStep infos ck? line).1 k = rget infos k ∧
    (∀ c, (descStep infos ck? line).2 = some c → c ∈ target_keys_desc) := by
  dsimp only [descStep]
  by_cases hls : lineStripped line = []
  · rw [if_pos hls]
    exact ⟨rfl, fun c hc => nomatch hc⟩
  · rw [if_neg hls]
    rcases hf : findDescKey (cleanLineStart (lineStripped line)) with _ | key
    · dsimp only
      cases ck? with
      | none => exact ⟨rfl, fun c hc => nomatch hc⟩
      | some ck =>
        dsimp only
        have hcv : ck ∈ target_keys_desc := hck ck rfl
        have hne : ¬k = ck := fun hh => hk (hh ▸ hcv)
        by_cases hn : isNoise (lineStripped line) = true
        · rw [if_pos hn]
          exact ⟨rfl, fun c hc => nomatch hc⟩
        · rw [if_neg hn]
          rcases hg : rget infos ck with _ | v
          · exact ⟨rfl, fun c hc => by
              injection hc with h1
              rw [← h1]; exact hcv⟩
          · cases v with
            | vStr ex =>
              dsimp only
              by_cases hex : ex = []
              · rw [if_pos hex]
                exact ⟨by rw [rget_rset_ne _ _ _ _ hne], fun c hc => by
                  injection hc with h1
                  rw [← h1]; exact hcv⟩
              · rw [if_neg hex]
                exact ⟨by rw [rget_rset_ne _ _ _ _ hne], fun c hc => by
                  injection hc with h1
                  rw [← h1]; exact hcv⟩
            | vList xs =>
              exact ⟨by rw [rget_rset_ne _ _ _ _ hne], fun c hc => by
                injection hc with h1
                rw [← h1]; exact hcv⟩
            | vNull =>
              exact ⟨rfl, fun c hc => by
                injection hc with h1
                rw [← h1]; exact hcv⟩
            | vBool b =>
              exact ⟨rfl, fun c hc => by
                injection hc with h1
                rw [← h1]; exact hcv⟩
            | vList2 xss =>
              exact ⟨rfl, fun c hc => by
                injection hc with h1
                rw [← h1]; exact hcv⟩
    · dsimp only
      have hkey : key ∈ target_keys_desc := by
        unfold findDescKey at hf
        exact List.mem_of_find?_eq_some hf
      have hne : ¬k = key := fun hh => hk (hh ▸ hkey)
      exact ⟨by rw [rget_rset_ne _ _ _ _ hne], fun c hc => by
        injection hc with h1
        rw [← h1]; exact hkey⟩

theorem descFold_preserve (k : Str) (hk : ¬k ∈ target_keys_desc) :
    ∀ (lines : List Str) (st : Record × Option Str),
      (∀ c, st.2 = some c → c ∈ target_keys_desc) →
      rget (lines.foldl (fun st line => descStep st.1 st.2 line) st).1 k =
        rget st.1 k := by
  intro lines
  induction lines with
  | nil => intro st _; rfl
  | cons l ls ih =>
    intro st hst
    simp only [List.foldl_cons]
    obtain ⟨h1, h2⟩ := descStep_preserve st.1 st.2 l k hk hst
    rw [ih (descStep st.1 st.2 l) h2, h1]

theorem subScrape_preserve (sp : Str → Option (List (Str × Str))) (r : Record)
    (ik pre k : Str)
    (h1 : ¬k = pre ++ "_components".data) (h2 : ¬k = pre ++ "_revisions".data)
    (h3 : ¬k = pre ++ "_buildtime".data) :
    rget (subScrapeStep sp r ik pre) k = rget r k := by
  unfold subScrapeStep
  rcases hg : rget r ik with _ | v
  · rfl
  · cases v with
    | vNull => rfl
    | vBool b => rfl
    | vList xs => rfl
    | vList2 xss => rfl
    | vStr su =>
      dsimp only
      by_cases hp : "http".data.isPrefixOf su = true
      · rw [if_pos hp]
        rcases hs : sp su with _ | rows
        · rfl
        · dsimp only
          rw [rget_rset_ne _ _ _ _ h3, rget_rset_ne _ _ _ _ h2,
              rget_rset_ne _ _ _ _ h1]
      · rw [if_neg hp]

theorem subpages_stage_error (p : IssuePage) (r : Record) :
    rget (subpages_stage p r) "error".data = rget r "error".data := by
  unfold subpages_stage url_keys_to_scrape
  simp only [List.foldl_cons, List.foldl_nil]
  rw [subScrape_preserve _ _ _ _ _ (by decide) (by decide) (by decide),
      subScrape_preserve _ _ _ _ _ (by decide) (by decide) (by decide),
      subScrape_preserve _ _ _ _ _ (by decide) (by decide) (by decide)]

theorem desc_stage_error (p : IssuePage) (r : Record) :
    rget (desc_stage p r) "error".data = rget r "error".data := by
  unfold desc_stage
  cases p.descText with
  | none => rfl
  | some txt =>
    unfold parseDescLines
    exact descFold_preserve "error".data (by decide) _ (r, none)
      (fun c hc => nomatch hc)

theorem fixed_stage_error (p : IssuePage) (r : Record) :
    rget (fixed_stage p r) "error".data = rget r "error".data := by
  unfold fixed_stage
  cases p.fixedInfo with
  | none => rfl
  | some ft =>
    dsimp only
    cases h2 : ft.2 with
    | some t =>
      rw [rget_rset_ne _ _ _ _ (by decide), rget_rset_ne _ _ _ _ (by decide)]
    | none => rw [rget_rset_ne _ _ _ _ (by decide)]

theorem meta_stage_error (p : IssuePage) (r : Record) :
    rget (meta_stage p r) "error".data = rget r "error".data := by
  unfold meta_stage
  cases p.metaFields with
  | none => rfl
  | some fields => exact meta_fold_preserve "error".data (by decide) (by decide) fields r

theorem reported_stage_error (p : IssuePage) (r : Record) :
    rget (reported_stage p r) "error".data = rget r "error".data := by
  unfold reported_stage
  cases p.reportedTime with
  | none => rfl
  | some t => rw [rget_rset_ne _ _ _ _ (by decide)]

theorem hotlists_stage_error (p : IssuePage) (r : Record) :
    rget (hotlists_stage p r) "error".data = rget r "error".data := by
  unfold hotlists_stage
  cases p.hotlists with
  | none => rfl
  | some els =>
    dsimp only
    by_cases he : els.filter (fun t => !(t == [])) = []
    · rw [if_pos he]
    · rw [if_neg he, rget_rset_ne _ _ _ _ (by decide)]

theorem title_stage_error_set (p : IssuePage) (r : Record)
    (h1 : p.title1 = none) (h2 : p.title2 = none) :
    rget (title_stage p r) "error".data = some (Value.vBool true) := by
  unfold title_stage
  rw [h1, h2]
  exact rget_rset_self r "error".data (Value.vBool true)

/-- A page whose extraction exercises the no-title error path while still
collecting metadata, description fields and revision-derived fields. -/
def examplePage : IssuePage where
  issueNo := 4242424242
  attempts := fun _ => AttemptOutcome.success
  finalUrl := "https://issues.oss-fuzz.com/issues/4242424242".data
  title1 := none
  title2 := none
  hotlists := none
  reportedTime := none
  metaFields := some [⟨"Reporter".data, ["alice".data], none⟩]
  fixedInfo := none
  descText := some
    "Crash Type: Heap-overflow\nCrash Revision: https://r.test/range?range=abc:def".data
  subPages := fun u =>
    if u = "https://r.test/range?range=abc:def".data then
      some [("comp".data, "aaaaaaaaaaaa:bbbbbbbbbbbb".data)]
    else none

/-- C10: a loaded page with no title element yields `error = true`, and
extraction continues — on `examplePage` the error record still carries a
metadata field, description fields and the three crash-revision-derived
fields. -/
theorem C10_error_record_extraction :
    (∀ p : IssuePage, load_success p.attempts = true → p.title1 = none →
      p.title2 = none →
      rget (get_issue p) "error".data = some (Value.vBool true)) ∧
    (rget (get_issue examplePage) "error".data = some (Value.vBool true) ∧
     rget (get_issue examplePage) "Reporter".data = some (Value.vStr "alice".data) ∧
     rget (get_issue examplePage) "Crash Type".data =
       some (Value.vStr "Heap-overflow".data) ∧
     rget (get_issue examplePage) "crash_components".data =
       some (Value.vList ["comp".data]) ∧
     rget (get_issue examplePage) "crash_revisions".data =
       some (Value.vList2 [["aaaaaaaaaaaa".data, "bbbbbbbbbbbb".data]]) ∧
     rget (get_issue examplePage) "crash_buildtime".data =
       some (Value.vList ["abc".data, "def".data])) := by
  constructor
  · intro p hload h1 h2
    unfold get_issue
    rw [hload, if_neg (by decide)]
    rw [subpages_stage_error, desc_stage_error, fixed_stage_error,
        meta_stage_error, reported_stage_error, hotlists_stage_error]
    exact title_stage_error_set p _ h1 h2
  · refine ⟨by decide, by decide, by decide, by decide, by decide, by decide⟩

/-- C10 witness: the general part applied to the concrete page. -/
theorem C10_witness :
    rget (get_issue examplePage) "error".data = some (Value.vBool true) :=
  C10_error_record_extraction.1 examplePage (by decide) rfl rfl

/-- A page on which every load attempt times out with the throttle snackbar
visible. -/
def throttledPage : IssuePage where
  issueNo := 123
  attempts := fun _ => AttemptOutcome.timeoutThrottled
  finalUrl := []
  title1 := none
  title2 := none
  hotlists := none
  reportedTime := none
  metaFields := none
  fixedInfo := none
  descText := none
  subPages := fun _ => none

/-- C2 counterexample: five consecutive throttled timeouts — retries that,
per the claim, should not count against the 5-attempt budget — exhaust the
loop and produce an `error = true` record, so throttling alone does exhaust
the budget. -/
theorem C2_counterexample :
    throttledPage.attempts 0 = AttemptOutcome.timeoutThrottled ∧
    throttledPage.attempts 1 = AttemptOutcome.timeoutThrottled ∧
    throttledPage.attempts 2 = AttemptOutcome.timeoutThrottled ∧
    throttledPage.attempts 3 = AttemptOutcome.timeoutThrottled ∧
    throttledPage.attempts 4 = AttemptOutcome.timeoutThrottled ∧
    load_success throttledPage.attempts = false ∧
    rget (get_issue throttledPage) "error".data = some (Value.vBool true) := by
  decide

/-! ### ID resolution (`main`, 5_get_issue_reports.py:344-468)

Target IDs come from the digit-only lines of the target file; processed IDs
from JSON-decoding the `id` cell of every prior batch row (the directory
walk and file reading are external I/O — the embedding receives the cell
strings); the work set is targets minus processed, unioned with the
re-scrape selection. -/

/-- Python `str.isdigit` (ASCII digits; the tracker IDs are ASCII). -/
def pyIsDigit (s : Str) : Bool := !(s == []) && s.all Char.isDigit

/-- `int(s)` on a digit string. -/
def digitsToNat (s : Str) : Nat :=
  s.foldl (fun acc c => acc * 10 + (c.toNat - 48)) 0

/-- One line of the target-file loop (lines 350-354). -/
def targetStep (acc : Finset Nat) (line : Str) : Finset Nat :=
  if pyIsDigit (pyStrip line) then insert (digitsToNat (pyStrip line)) acc
  else acc

def all_target_ids (fileLines : List Str) : Finset Nat :=
  fileLines.foldl targetStep ∅

/-- One `id` cell of `load_processed_ids_from_csvs` (lines 41-48): decode the
JSON cell; keep a non-null value whose string form is all digits.  (A string
value is its own string form; booleans and lists never print as digits, and
an empty or undecodable cell is skipped.) -/
def processedStep (acc : Finset Nat) (cell : Str) : Finset Nat :=
  match jparse cell with
  | some (Value.vStr t) => if pyIsDigit t then insert (digitsToNat t) acc else acc
  | _ => acc

def load_processed_ids (idCells : List Str) : Finset Nat :=
  idCells.foldl processedStep ∅

/-- `ids_to_process_set = (all_target_ids - processed_ids) | id_list`
(lines 464-466). -/
def resolved_ids (targetLines idCells : List Str) (rescrapeIds : List Nat) :
    Finset Nat :=
  (all_target_ids targetLines \ load_processed_ids idCells) ∪ rescrapeIds.toFinset

theorem foldl_mem_iff (P : Str → Nat → Prop)
    (step : Finset Nat → Str → Finset Nat)
    (hstep : ∀ acc cell n, n ∈ step acc cell ↔ n ∈ acc ∨ P cell n) :
    ∀ (cells : List Str) (acc : Finset Nat) (n : Nat),
      n ∈ cells.foldl step acc ↔ n ∈ acc ∨ ∃ cell ∈ cells, P cell n := by
  intro cells
  induction cells with
  | nil => intro acc n; simp
  | cons c cs ih =>
    intro acc n
    simp only [List.foldl_cons]
    rw [ih, hstep]
    simp only [List.mem_cons]
    constructor
    · rintro ((h | h) | ⟨cell, hc, hp⟩)
      · exact Or.inl h
      · exact Or.inr ⟨c, Or.inl rfl, h⟩
      · exact Or.inr ⟨cell, Or.inr hc, hp⟩
    · rintro (h | ⟨cell, hc, hp⟩)
      · exact Or.inl (Or.inl h)
      · cases hc with
        | inl h0 => subst h0; exact Or.inl (Or.inr hp)
        | inr hm => exact Or.inr ⟨cell, hm, hp⟩

theorem targetStep_mem (acc : Finset Nat) (line : Str) (n : Nat) :
    n ∈ targetStep acc line ↔ n ∈ acc ∨
      (pyIsDigit (pyStrip line) = true ∧ digitsToNat (pyStrip line) = n) := by
  unfold targetStep
  by_cases hd : pyIsDigit (pyStrip line) = true
  · rw [if_pos hd]
    simp only [Finset.mem_insert]
    constructor
    · rintro (h | h)
      · exact Or.inr ⟨hd, h.symm⟩
      · exact Or.inl h
    · rintro (h | ⟨_, h⟩)
      · exact Or.inr h
      · exact Or.inl h.symm
  · rw [if_neg hd]
    constructor
    · exact Or.inl
    · rintro (h | ⟨hdig, _⟩)
      · exact h
      · exact absurd hdig hd

theorem processedStep_mem (acc : Finset Nat) (cell : Str) (n : Nat) :
    n ∈ processedStep acc cell ↔ n ∈ acc ∨
      (∃ t, jparse cell = some (Value.vStr t) ∧ pyIsDigit t = true ∧
        digitsToNat t = n) := by
  unfold processedStep
  rcases hj : jparse cell with _ | v
  · simp
  · cases v with
    | vStr t =>
      dsimp only
      by_cases hd : pyIsDigit t = true
      · rw [if_pos hd]
        simp only [Finset.mem_insert, Option.some.injEq, Value.vStr.injEq]
        constructor
        · rintro (h | h)
          · exact Or.inr ⟨t, rfl, hd, h.symm⟩
          · exact Or.inl h
        · rintro (h | ⟨t2, ht2, hd2, hv2⟩)
          · exact Or.inr h
          · rw [← ht2] at hv2
            exact Or.inl hv2.symm
      · rw [if_neg hd]
        simp only [Option.some.injEq, Value.vStr.injEq]
        constructor
        · exact Or.inl
        · rintro (h | ⟨t2, ht2, hd2, _⟩)
          · exact h
          · rw [← ht2] at hd2
            exact absurd hd2 hd
    | vNull => simp
    | vBool b => simp
    | vList xs => simp
    | vList2 xss => simp

theorem mem_all_target_ids (lines : List Str) (n : Nat) :
    n ∈ all_target_ids lines ↔ ∃ line ∈ lines,
      pyIsDigit (pyStrip line) = true ∧ digitsToNat (pyStrip line) = n := by
  unfold all_target_ids
  rw [foldl_mem_iff _ targetStep targetStep_mem lines ∅ n]
  simp

theorem mem_load_processed_ids (idCells : List Str) (n : Nat) :
    n ∈ load_processed_ids idCells ↔ ∃ cell ∈ idCells, ∃ t,
      jparse cell = some (Value.vStr t) ∧ pyIsDigit t = true ∧
        digitsToNat t = n := by
  unfold load_processed_ids
  rw [foldl_mem_iff _ processedStep processedStep_mem idCells ∅ n]
  simp

/-- C8: with an empty re-scrape filter, the resolved work set is exactly the
integers of the digit-only target lines (non-digit lines ignored) minus the
IDs decoded from prior batches' `id` cells; in the concrete scenario with
target lines `123`, `456`, `abc` and a prior batch containing id `123`, the
work set is exactly 456. -/
theorem C8_resolved_work_set :
    (∀ (targetLines idCells : List Str) (n : Nat),
      n ∈ resolved_ids targetLines idCells [] ↔
        ((∃ line ∈ targetLines, pyIsDigit (pyStrip line) = true ∧
            digitsToNat (pyStrip line) = n) ∧
          ¬n ∈ load_processed_ids idCells)) ∧
    (∀ (idCells : List Str) (n : Nat),
      n ∈ load_processed_ids idCells ↔ ∃ cell ∈ idCells, ∃ t,
        jparse cell = some (Value.vStr t) ∧ pyIsDigit t = true ∧
          digitsToNat t = n) ∧
    resolved_ids ["123".data, "456".data, "abc".data] ["\"123\"".data] [] =
      ({456} : Finset Nat) := by
  refine ⟨?_, mem_load_processed_ids, ?_⟩
  · intro tl ic n
    unfold resolved_ids
    simp only [List.toFinset_nil, Finset.union_empty, Finset.mem_sdiff]
    rw [mem_all_target_ids]
  · decide

end CFuzz
